import Mathlib

set_option maxHeartbeats 1000000
set_option maxRecDepth 100000

/-! Shallow embedding of ppdet/modeling/backbones/mixunet.py (MixUnet backbone).

Rank-4 tensors are modelled as index functions together with the shapes the
surrounding code tracks.  Layer forward passes whose claims concern shapes
are modelled as shape transformers returning Option shapes, where none
models a raised framework error or a failed assert.  All definitions are
translated from the source; the few helpers that live in sibling modules of
the repository (swin_transformer.py, transformer_utils.py) are marked
"Modelled from the spec". -/

/-- Index-function model of window_partition2 (mixunet.py, lines 33-49).
The input is a (B, C, H, W) tensor x; the code reshapes it to
(B, C, H / wh, wh, W / ww, ww), transposes with permutation
(0, 2, 4, 3, 5, 1) and flattens to (B * (H / wh) * (W / ww), wh * ww, C).
The definition is the index map that this reshape-transpose-reshape chain
induces on entries: output position (bw, p, c) decodes bw into
(b, hIdx, wIdx) and p into (innerH, innerW) in row-major order. -/
def window_partition2 {α : Type} (H W wh ww : Nat) (x : Nat → Nat → Nat → Nat → α) :
    Nat → Nat → Nat → α :=
  fun bw p c =>
    x (bw / (H / wh * (W / ww))) c
      (bw / (W / ww) % (H / wh) * wh + p / ww)
      (bw % (W / ww) * ww + p % ww)

/-- Index-function model of window_reverse2 (mixunet.py, lines 52-68).
The window tensor is reshaped to (B, H / wh, W / ww, wh, ww, C), transposed
with permutation (0, 5, 1, 3, 2, 4) and flattened to (B, C, H, W).  Output
position (b, c, h, w) reads window ((b * (H / wh) + h / wh) * (W / ww) + w / ww)
at in-window position (h % wh) * ww + (w % ww), channel c.  The parameter C
is the channel count passed by the callers; it fixes the reshape sizes but
does not enter the index arithmetic. -/
def window_reverse2 {α : Type} (H W C wh ww : Nat) (windows : Nat → Nat → Nat → α) :
    Nat → Nat → Nat → Nat → α :=
  fun b c h w =>
    windows ((b * (H / wh) + h / wh) * (W / ww) + w / ww) (h % wh * ww + w % ww) c

/-- Entry (i, j) of MixingAttention.relative_position_index
(mixunet.py, lines 165-185 and 115-120).  Flat token index i inside a
(wh, ww) window has coordinates (i / ww, i % ww); _get_rel_pos shifts the
pairwise coordinate differences by (wh - 1, ww - 1), scales the row
component by 2 * ww - 1, and __init__ sums the two components. -/
def relative_position_index (wh ww i j : Nat) : Int :=
  (((i / ww : Nat) : Int) - ((j / ww : Nat) : Int) + ((wh : Int) - 1)) * (2 * (ww : Int) - 1)
    + (((i % ww : Nat) : Int) - ((j % ww : Nat) : Int) + ((ww : Int) - 1))

/-- Index-function model of the reshape chain in PatchExpand.forward
(mixunet.py, lines 757-760): the post-expansion tensor (B, L, C) with
L = H * W is reshaped to (B, H, W, C), then to (B, 2H, 2W, C / 4), then to
(B, 4 * H * W, C / 4).  All three reshapes are plain row-major reshapes, so
the per-batch flat offset is preserved: output entry (b, l2, c2) sits at
flat offset l2 * (C / 4) + c2 and reads the input entry at the token/channel
decomposition of that same offset.  Only C enters the index arithmetic. -/
def patchExpandCodeLayout {α : Type} (C : Nat) (x : Nat → Nat → Nat → α) :
    Nat → Nat → Nat → α :=
  fun b l2 c2 => x b ((l2 * (C / 4) + c2) / C) ((l2 * (C / 4) + c2) % C)

/-- Modelled from the spec: the pixel-shuffle layout that PatchExpand is
documented to implement (spec section 4.5, and the commented-out line 758 of
mixunet.py: rearrange with pattern b h w (p1 p2 c) -> b (h p1) (w p2) c
with p1 = p2 = 2 and c = C / 4), flattened to (B, (2H) * (2W), C / 4):
output spatial position (h2, w2) = (l2 / (2W), l2 % (2W)) reads source
location (h2 / 2, w2 / 2) at channel ((h2 % 2) * 2 + w2 % 2) * (C / 4) + c2. -/
def patchExpandSpecLayout {α : Type} (W C : Nat) (x : Nat → Nat → Nat → α) :
    Nat → Nat → Nat → α :=
  fun b l2 c2 =>
    x b (l2 / (2 * W) / 2 * W + l2 % (2 * W) / 2)
      ((l2 / (2 * W) % 2 * 2 + l2 % (2 * W) % 2) * (C / 4) + c2)

/-- Value-level model of the F.pad call in MixingBlock.forward
(mixunet.py, line 401): the feature map (B, H, W, C) is padded with zeros
only below (padB rows) and to the right (padR columns); entries at the
original positions are untouched. -/
def padHW {α : Type} (zero : α) (H W padB padR : Nat)
    (x : Nat → Nat → Nat → Nat → α) : Nat → Nat → Nat → Nat → α :=
  fun b h w c => if h < H ∧ w < W then x b h w c else zero

/-- Configuration recorded by MixingBlock.__init__ (mixunet.py, lines 349-355). -/
structure MixingBlockCfg where
  dim : Nat
  numHeads : Nat
  windowSize : Nat
  shiftSize : Nat
  deriving DecidableEq, Repr

/-- Model of MixingBlock.__init__ (mixunet.py, lines 335-377): the
constructor stores its configuration; the assert at line 355
(self.shift_size == 0, "No shift in MixUnet") is modelled by returning
none for a non-zero shift size. -/
def mixingBlockInit (dim numHeads windowSize shiftSize : Nat) : Option MixingBlockCfg :=
  if shiftSize = 0 then some ⟨dim, numHeads, windowSize, shiftSize⟩ else none

/-- Model of the cyclic-shift branch of MixingBlock.forward
(mixunet.py, lines 404-411): when shift_size > 0 the feature map is rolled
and the mask matrix is kept as the attention mask, otherwise the map is
passed through unchanged and the attention mask is None. -/
def shiftAndMask {α β : Type} (shiftSize : Nat) (roll : α → α) (x : α)
    (maskMatrix : Option β) : α × Option β :=
  if 0 < shiftSize then (roll x, maskMatrix) else (x, none)

/-- Shape of a rank-3 tensor (three dimensions, in tensor order). -/
structure S3 where
  a : Nat
  b : Nat
  c : Nat
  deriving DecidableEq, Repr

/-- Shape of a rank-4 tensor (four dimensions, in tensor order). -/
structure S4 where
  a : Nat
  b : Nat
  c : Nat
  d : Nat
  deriving DecidableEq, Repr

/-- Shape of a rank-5 tensor (five dimensions, in tensor order). -/
structure S5 where
  a : Nat
  b : Nat
  c : Nat
  d : Nat
  e : Nat
  deriving DecidableEq, Repr

/-- Shape action of nn.Linear(inF, outF) on a rank-3 tensor: the last
dimension must equal the declared input width and is replaced by outF. -/
def linearShape (inF outF : Nat) (s : S3) : Option S3 :=
  if s.c = inF then some ⟨s.a, s.b, outF⟩ else none

/-- Shape action of nn.LayerNorm(d) on a rank-3 tensor: the normalized
last dimension must equal d; the shape is unchanged. -/
def layerNormShape (d : Nat) (s : S3) : Option S3 :=
  if s.c = d then some s else none

/-- Shape action of nn.Conv2D(cin, cout, kernel, stride, padding) on an
NCHW tensor: the input channel count must match, the (padded) spatial
extent must cover the kernel, and each spatial dimension becomes
(size + 2 * padding - kernel) / stride + 1. -/
def conv2dShape (cin cout k stride pad : Nat) (t : S4) : Option S4 :=
  if t.b = cin ∧ k ≤ t.c + 2 * pad ∧ k ≤ t.d + 2 * pad ∧ 0 < stride then
    some ⟨t.a, cout, (t.c + 2 * pad - k) / stride + 1, (t.d + 2 * pad - k) / stride + 1⟩
  else none

/-- Shape action of nn.BatchNorm(d) on an NCHW tensor: the channel
dimension must equal d; the shape is unchanged. -/
def batchNorm2dShape (d : Nat) (t : S4) : Option S4 :=
  if t.b = d then some t else none

/-- Guard of a reshape to fully specified target dimensions: the element
counts must agree exactly, otherwise the framework raises. -/
def reshapeFixed (total newTotal : Nat) : Option Unit :=
  if total = newTotal then some () else none

/-- Guard of a reshape with one inferred (-1) dimension: the product of the
specified dimensions must divide the element count; the inferred dimension
is the quotient. -/
def reshapeNeg (total specified : Nat) : Option Nat :=
  if specified ∣ total then some (total / specified) else none

/-- Broadcast of a single dimension pair: equal sizes broadcast to
themselves and a size of 1 stretches to the other size. -/
def bcDim (m n : Nat) : Option Nat :=
  if m = n then some m else if m = 1 then some n else if n = 1 then some m else none

/-- Broadcast of two rank-4 shapes, dimension by dimension. -/
def broadcastShape (x y : S4) : Option S4 := do
  let a ← bcDim x.a y.a
  let b ← bcDim x.b y.b
  let c ← bcDim x.c y.c
  let d ← bcDim x.d y.d
  pure ⟨a, b, c, d⟩

/-- Broadcast of two rank-5 shapes, dimension by dimension. -/
def broadcastShape5 (x y : S5) : Option S5 := do
  let a ← bcDim x.a y.a
  let b ← bcDim x.b y.b
  let c ← bcDim x.c y.c
  let d ← bcDim x.d y.d
  let e ← bcDim x.e y.e
  pure ⟨a, b, c, d, e⟩

/-- Broadcast of two rank-3 shapes, dimension by dimension. -/
def broadcastShape3 (x y : S3) : Option S3 := do
  let a ← bcDim x.a y.a
  let b ← bcDim x.b y.b
  let c ← bcDim x.c y.c
  pure ⟨a, b, c⟩

/-- Shape of paddle.mm on rank-4 operands: leading batch dimensions must
agree and the inner contraction dimensions must match. -/
def mmShape (x y : S4) : Option S4 :=
  if x.a = y.a ∧ x.b = y.b ∧ x.d = y.c then some ⟨x.a, x.b, x.c, y.d⟩ else none

/-- Shape of paddle.concat along the last axis of rank-3 tensors. -/
def concatLast (x y : S3) : Option S3 :=
  if x.a = y.a ∧ x.b = y.b then some ⟨x.a, x.b, x.c + y.c⟩ else none

/-- Shape of paddle.concat along the channel axis of NCHW tensors. -/
def concatChannel (x y : S4) : Option S4 :=
  if x.a = y.a ∧ x.c = y.c ∧ x.d = y.d then some ⟨x.a, x.b + y.b, x.c, x.d⟩ else none

/-- Guard for a python assert on a decidable proposition. -/
def assertShape (p : Prop) [Decidable p] : Option Unit :=
  if p then some () else none

/-- Shape action of window_reverse2 (mixunet.py, lines 52-68): the input
(numWindows * B, N, Cin) is reshaped with an inferred batch dimension to
(-1, H / wh, W / ww, wh, ww, c), transposed, and reshaped to (-1, c, H, W).
Both inferred dimensions must divide the element count. -/
def windowReverse2Shape (wh ww H W c : Nat) (s : S3) : Option S4 := do
  let total := s.a * s.b * s.c
  let _ ← reshapeNeg total (H / wh * (W / ww * (wh * (ww * c))))
  let b2 ← reshapeNeg total (c * (H * W))
  pure ⟨b2, c, H, W⟩

/-- Shape action of window_partition2 (mixunet.py, lines 33-49): the NCHW
input is reshaped to the fully specified (B, C, H / wh, wh, W / ww, ww),
transposed, and reshaped to (-1, wh * ww, C). -/
def windowPartition2Shape (wh ww : Nat) (t : S4) : Option S3 := do
  let total := t.a * t.b * t.c * t.d
  let _ ← reshapeFixed total (t.a * t.b * (t.c / wh * wh) * (t.d / ww * ww))
  let bw ← reshapeNeg total (wh * ww * t.b)
  pure ⟨bw, wh * ww, t.b⟩


/-- Shape-level model of the projection prologue of MixingAttention.forward
(mixunet.py, lines 196-200): the attention-branch projection and norm, the
convolution-branch projection and norm, and the window_reverse2 call that
turns the convolution branch back into an NCHW map.  Returns the
attention-branch tokens and the convolution-branch map. -/
def mixingAttentionProjShape (dim wh ww H W : Nat) (x : S3) : Option (S3 × S4) := do
  let xa ← linearShape dim (dim / 2) x
  let xa ← layerNormShape (dim / 2) xa
  let xc3 ← linearShape dim dim x
  let xc3 ← layerNormShape dim xc3
  let xc ← windowReverse2Shape wh ww H W xc3.c xc3
  pure (xa, xc)

/-- Shape-level model of the convolution branch of MixingAttention.forward
(mixunet.py, lines 202-206): dwconv3x3 with BatchNorm, the
channel_interaction stack on the globally pooled map, and the 1x1
projection to half width.  Returns the channel-interaction shape and the
projected convolution map. -/
def mixingAttentionConvShape (dim dwk : Nat) (xc : S4) : Option (S4 × S4) := do
  let xc ← conv2dShape dim dim dwk 1 (dwk / 2) xc
  let xc ← batchNorm2dShape dim xc
  let ci ← conv2dShape dim (dim / 8) 1 1 0 ⟨xc.a, xc.b, 1, 1⟩
  let ci ← batchNorm2dShape (dim / 8) ci
  let ci ← conv2dShape (dim / 8) (dim / 2) 1 1 0 ci
  let xcp ← conv2dShape dim (dim / 2) 1 1 0 xc
  pure (ci, xcp)

/-- Shape-level model of the query/key/value preparation of
MixingAttention.forward (mixunet.py, lines 209-221): the qkv projection
with its reshape and transpose, the channel-interaction gate reshape, and
the two value reshapes around the broadcast multiplication.  Returns the
shapes of q (= k) and of the gated v. -/
def mixingAttentionQKVShape (dim nh : Nat) (xa : S3) (ci : S4) : Option (S4 × S4) := do
  let hd := xa.c / nh
  let q3 ← linearShape (dim / 2) (dim / 2 * 3) xa
  let _ ← reshapeFixed (q3.a * q3.b * q3.c) (xa.a * (xa.b * (3 * (nh * hd))))
  let q : S4 := ⟨xa.a, nh, xa.b, hd⟩
  let b0 ← reshapeNeg (ci.a * ci.b * ci.c * ci.d) (nh * hd)
  let vmid ← reshapeNeg (q.a * q.b * q.c * q.d) (b0 * (nh * (xa.b * hd)))
  let _ ← broadcastShape5 ⟨b0, vmid, nh, xa.b, hd⟩ ⟨b0, 1, nh, 1, hd⟩
  let vb ← reshapeNeg (b0 * vmid * nh * xa.b * hd) (nh * (xa.b * hd))
  pure (q, ⟨vb, nh, xa.b, hd⟩)

/-- Shape-level model of the attention-score computation of
MixingAttention.forward (mixunet.py, lines 223-250): q times transposed k,
the relative-position-bias reshape and broadcast add, the optional mask
branch with its two reshapes and broadcast add, softmax, and the
attention-times-v product reshaped back to (B_, N, C). -/
def mixingAttentionScoreShape (nh wh ww : Nat) (mask : Option S3) (xa : S3)
    (q v : S4) : Option S3 := do
  let attn ← mmShape q ⟨q.a, q.b, q.d, q.c⟩
  let nb ← reshapeNeg (wh * ww * (wh * ww) * nh) (wh * ww * (wh * ww))
  let attn ← broadcastShape attn ⟨1, nb, wh * ww, wh * ww⟩
  let attn ← match mask with
    | some m => do
        let g ← reshapeNeg (attn.a * attn.b * attn.c * attn.d) (m.a * (nh * (attn.c * attn.d)))
        let _ ← broadcastShape5 ⟨g, m.a, nh, attn.c, attn.d⟩ ⟨1, m.a, 1, m.b, m.c⟩
        let ab ← reshapeNeg (g * m.a * nh * attn.c * attn.d) (nh * (attn.c * attn.d))
        pure (⟨ab, nh, attn.c, attn.d⟩ : S4)
    | none => pure attn
  let xat4 ← mmShape attn v
  let _ ← reshapeFixed (xat4.a * xat4.b * xat4.c * xat4.d) (xa.a * (xa.b * xa.c))
  pure ⟨xa.a, xa.b, xa.c⟩

/-- Shape-level model of the fusion epilogue of MixingAttention.forward
(mixunet.py, lines 252-265): the spatial_interaction stack on the
window-reversed attention map, the gated convolution branch with its
BatchNorm and window_partition2, the attention norm, the channel concat
and the final projection. -/
def mixingAttentionFuseShape (dim wh ww H W : Nat) (xat : S3) (xc : S4) : Option S3 := do
  let xsp ← windowReverse2Shape wh ww H W xat.c xat
  let si ← conv2dShape (dim / 2) (dim / 16) 1 1 0 xsp
  let si ← batchNorm2dShape (dim / 16) si
  let si ← conv2dShape (dim / 16) 1 1 1 0 si
  let xc ← broadcastShape si xc
  let xc ← batchNorm2dShape (dim / 2) xc
  let xcw ← windowPartition2Shape wh ww xc
  let xat ← layerNormShape (dim / 2) xat
  let xo ← concatLast xat xcw
  linearShape dim dim xo

/-- Shape-level model of MixingAttention.forward (mixunet.py, lines
187-265) for a module built with channel width dim, window (wh, ww),
depth-wise kernel dwk and nh heads: the composition of the projection
prologue, the convolution branch, the query/key/value preparation, the
attention-score computation and the fusion epilogue, each replaying the
reshapes, transposes, convolutions, norms, matmuls, broadcasts and concat
of the source in order.  The input x has shape (numWindows * B, N, C);
H and W describe the unwindowed map and mask is the optional attention
mask. -/
def mixingAttentionForwardShape (dim wh ww dwk nh H W : Nat)
    (mask : Option S3) (x : S3) : Option S3 := do
  let (xa, xc) ← mixingAttentionProjShape dim wh ww H W x
  let (ci, xcp) ← mixingAttentionConvShape dim dwk xc
  let (q, v) ← mixingAttentionQKVShape dim nh xa ci
  let xat ← mixingAttentionScoreShape nh wh ww mask xa q v
  mixingAttentionFuseShape dim wh ww H W xat xcp

/-- Shape-level model of Bottleneck.forward (mixunet.py, lines 267-310)
for in_channel = out_channel = dim: conv1 + bn1, conv2 (channel halving;
bn2 is commented out in the source), conv3 (channel restore; bn3 commented
out), conv4 + bn4, then the residual add with the block input. -/
def bottleneckShape (dim : Nat) (t : S4) : Option S4 := do
  let o ← conv2dShape dim dim 3 1 1 t
  let o ← batchNorm2dShape dim o
  let o ← conv2dShape dim (dim / 2) 1 1 0 o
  let o ← conv2dShape (dim / 2) dim 1 1 0 o
  let o ← conv2dShape dim dim 3 1 1 o
  let o ← batchNorm2dShape dim o
  broadcastShape o t

/-- Modelled from the spec: shape of swin_transformer.window_partition
(imported at mixunet.py line 23; the spec, section 4.1, contracts the
windowing utilities to split a feature map into non-overlapping ws-by-ws
tiles).  The channels-last input (B, H, W, C) is reshaped to the fully
specified (B, H / ws, ws, W / ws, ws, C) -- so the element counts must
agree -- and the windows are flattened to (B * (H / ws) * (W / ws), ws, ws, C). -/
def swinWindowPartitionShape (ws : Nat) (t : S4) : Option S4 := do
  let _ ← reshapeFixed (t.a * t.b * t.c * t.d) (t.a * (t.b / ws * ws) * (t.c / ws * ws) * t.d)
  pure ⟨t.a * (t.b / ws) * (t.c / ws), ws, ws, t.d⟩

/-- Modelled from the spec: shape of swin_transformer.window_reverse
(imported at mixunet.py line 23; per the spec, section 4.1, reverse is the
exact inverse of partition given the same H and W).  The window batch must
be a multiple of the window count (H / ws) * (W / ws); the result is the
channels-last map (B, H, W, C). -/
def swinWindowReverseShape (ws H W : Nat) (t : S4) : Option S4 :=
  if t.b = ws ∧ t.c = ws ∧ H / ws * (W / ws) ∣ t.a then
    some ⟨t.a / (H / ws * (W / ws)), H, W, t.d⟩
  else none

/-- Modelled from the spec: shape of swin_transformer.Mlp (imported at
mixunet.py line 23; per the spec, section 4.4, the trailing MLP maps the
channel width to a hidden width and back). -/
def mlpShape (d hidden : Nat) (s : S3) : Option S3 := do
  let s ← linearShape d hidden s
  linearShape hidden d s

/-- Shape-level model of the first half of MixingBlock.forward
(mixunet.py, lines 387-423): the size assert, norm1, reshape and transpose
to NCHW, the convolutional bottleneck, the transpose back, the
trailing-edge pad to a multiple of the window size, the cyclic-shift
branch, the window partition, and the MixingAttention call at the padded
resolution.  Returns the attention windows together with the padded
height and width. -/
def mixingBlockFrontShape (dim nh ws dwk shiftSize H W : Nat)
    (maskMatrix : Option S3) (x : S3) : Option (S3 × Nat × Nat) := do
  let _ ← assertShape (x.b = H * W)
  let s ← layerNormShape dim x
  let _ ← reshapeFixed (s.a * s.b * s.c) (s.a * (H * (W * s.c)))
  let t ← bottleneckShape dim ⟨s.a, s.c, H, W⟩
  let tl : S4 := ⟨t.a, t.c, t.d, t.b⟩
  let padR := (ws - W % ws) % ws
  let padB := (ws - H % ws) % ws
  let tp : S4 := ⟨tl.a, tl.b + padB, tl.c + padR, tl.d⟩
  let (tsh, attnMask) := shiftAndMask shiftSize id tp maskMatrix
  let xw4 ← swinWindowPartitionShape ws tsh
  let bw ← reshapeNeg (xw4.a * xw4.b * xw4.c * xw4.d) (ws * ws * s.c)
  let aw ← mixingAttentionForwardShape dim ws ws dwk nh tp.b tp.c attnMask ⟨bw, ws * ws, s.c⟩
  pure (aw, tp.b, tp.c)

/-- Shape-level model of the second half of MixingBlock.forward
(mixunet.py, lines 425-449): the window merge reshape, the window reverse
at the padded resolution (Hp, Wp), the crop back to H and W, the reshape
to (B, H * W, C), the residual add with the shortcut, norm2, the MLP and
the second residual add. -/
def mixingBlockBackShape (dim ws mlpHidden H W Hp Wp : Nat) (x aw : S3) : Option S3 := do
  let mb ← reshapeNeg (aw.a * aw.b * aw.c) (ws * (ws * x.c))
  let sh4 ← swinWindowReverseShape ws Hp Wp ⟨mb, ws, ws, x.c⟩
  let cr : S4 := ⟨sh4.a, min H sh4.b, min W sh4.c, sh4.d⟩
  let _ ← reshapeFixed (cr.a * cr.b * cr.c * cr.d) (x.a * (H * W * x.c))
  let xr ← broadcastShape3 x ⟨x.a, H * W, x.c⟩
  let m ← layerNormShape dim xr
  let m ← mlpShape dim mlpHidden m
  broadcastShape3 xr m

/-- Shape-level model of MixingBlock.forward (mixunet.py, lines 379-449)
for a block with channel width dim, nh heads, window size ws, depth-wise
kernel dwk, shift size shiftSize and MLP hidden width mlpHidden, applied
to an input of shape (B, L, C) at the externally assigned resolution
(H, W): the composition of the front half (assert, norm1, bottleneck,
pad, shift branch, window partition, attention) and the back half
(window merge and reverse, crop, reshape, residual, norm2, MLP,
residual). -/
def mixingBlockForwardShape (dim nh ws dwk shiftSize mlpHidden H W : Nat)
    (maskMatrix : Option S3) (x : S3) : Option S3 := do
  let (aw, Hp, Wp) ← mixingBlockFrontShape dim nh ws dwk shiftSize H W maskMatrix x
  mixingBlockBackShape dim ws mlpHidden H W Hp Wp x aw

/-- Shape-level model of Focus.forward (mixunet.py, lines 467-482): the
NCHW map is deinterleaved into four stride-2 sub-maps (even/odd row and
column slices), concatenated along the channel axis, and projected by
BaseConv(cin * 4, cout, ksize=1, stride=1). -/
def focusShape (cin cout : Nat) (t : S4) : Option S4 := do
  let p1 : S4 := ⟨t.a, t.b, (t.c + 1) / 2, (t.d + 1) / 2⟩
  let p2 : S4 := ⟨t.a, t.b, t.c / 2, (t.d + 1) / 2⟩
  let p3 : S4 := ⟨t.a, t.b, (t.c + 1) / 2, t.d / 2⟩
  let p4 : S4 := ⟨t.a, t.b, t.c / 2, t.d / 2⟩
  let c12 ← concatChannel p1 p2
  let c123 ← concatChannel c12 p3
  let cat4 ← concatChannel c123 p4
  conv2dShape (cin * 4) cout 1 1 0 cat4

/-- Shape-level model of ConvMerging.forward (mixunet.py, lines 500-515)
for a merge from width dim to outDim: the size assert, the evenness
assert, the reshape and transpose to NCHW, BatchNorm(dim), the Focus
reduction, and the flatten back to (B, (H / 2) * (W / 2), outDim). -/
def convMergingShape (dim outDim H W : Nat) (x : S3) : Option S3 := do
  let _ ← assertShape (x.b = H * W)
  let _ ← assertShape (H % 2 = 0 ∧ W % 2 = 0)
  let _ ← reshapeFixed (x.a * x.b * x.c) (x.a * (H * (W * x.c)))
  let t ← batchNorm2dShape dim ⟨x.a, x.c, H, W⟩
  let t ← focusShape dim outDim t
  pure ⟨t.a, t.c * t.d, t.b⟩

/-- Shape-level model of PatchExpand.forward (mixunet.py, lines 747-763)
for dim_scale = 2 and construction-time input_resolution (H, W): the
Linear(dim, 2 * dim) expansion, the size assert L == H * W, the row-major
reshape chain landing at (B, (2H) * (2W), C / 4), and the trailing
LayerNorm(dim / 2). -/
def patchExpandShape (dim H W : Nat) (x : S3) : Option S3 := do
  let e ← linearShape dim (2 * dim) x
  let _ ← assertShape (e.b = H * W)
  let _ ← reshapeFixed (e.a * e.b * e.c) (e.a * (H * (W * e.c)))
  let _ ← reshapeFixed (e.a * (H * (W * e.c))) (e.a * (2 * H * (2 * W * (e.c / 4))))
  layerNormShape (dim / 2) ⟨e.a, 2 * H * (2 * W), e.c / 4⟩

/-- Shape-level model of ConvEmbed.forward (mixunet.py, lines 718-737):
pad H and W up to multiples of the patch size, apply the three stem
convolutions with their BatchNorms, project with a patch_size / 2 strided
convolution, flatten, apply the LayerNorm, and reshape back to NCHW. -/
def convEmbedShape (patchSize inChans embedDim : Nat) (t : S4) : Option S4 := do
  let W2 := if t.d % patchSize = 0 then t.d else t.d + (patchSize - t.d % patchSize)
  let H2 := if t.c % patchSize = 0 then t.c else t.c + (patchSize - t.c % patchSize)
  let t1 : S4 := ⟨t.a, t.b, H2, W2⟩
  let t1 ← conv2dShape inChans (embedDim / 2) 3 (patchSize / 2) 1 t1
  let t1 ← batchNorm2dShape (embedDim / 2) t1
  let t1 ← conv2dShape (embedDim / 2) (embedDim / 2) 3 1 1 t1
  let t1 ← batchNorm2dShape (embedDim / 2) t1
  let t1 ← conv2dShape (embedDim / 2) (embedDim / 2) 3 1 1 t1
  let t1 ← batchNorm2dShape (embedDim / 2) t1
  let t1 ← conv2dShape (embedDim / 2) embedDim (patchSize / 2) (patchSize / 2) 0 t1
  let _ ← layerNormShape embedDim ⟨t1.a, t1.c * t1.d, t1.b⟩
  let _ ← reshapeNeg (t1.a * (t1.c * t1.d) * t1.b) (embedDim * (t1.c * t1.d))
  pure t1

/-- Shape-level model of the block loop shared by BasicLayer.forward and
BasicLayer_up.forward (mixunet.py, lines 595-597 and 655-658): each block
is assigned H and W and applied in sequence with mask_matrix None. -/
def blocksShape (dim nh ws dwk mlpHidden H W : Nat) : Nat → S3 → Option S3
  | 0, x => some x
  | d + 1, x => do
      let x1 ← mixingBlockForwardShape dim nh ws dwk 0 mlpHidden H W none x
      blocksShape dim nh ws dwk mlpHidden H W d x1

/-- Shape-level model of BasicLayer.forward (mixunet.py, lines 588-603):
run the blocks at resolution (H, W), then optionally downsample with
ConvMerging to the configured output width, halving the resolution with
rounding up, returning (H, W, x, Wh, Ww) as the source does. -/
def basicLayerShape (dim nh ws dwk mlpHidden depth : Nat) (downsample : Option Nat)
    (x : S3) (H W : Nat) : Option (Nat × Nat × S3 × Nat × Nat) := do
  let x1 ← blocksShape dim nh ws dwk mlpHidden H W depth x
  match downsample with
  | some outDim => do
      let xd ← convMergingShape dim outDim H W x1
      pure (H, W, xd, (H + 1) / 2, (W + 1) / 2)
  | none => pure (H, W, x1, H, W)

/-- Shape-level model of BasicLayer_up.forward (mixunet.py, lines
653-662): run the blocks at resolution (H, W), keep the block-stack
output, and upsample it with PatchExpand at the construction-time input
resolution, returning (upsampled, output) as the source does. -/
def basicLayerUpShape (dim nh ws dwk mlpHidden depth : Nat) (inputRes : Nat × Nat)
    (x : S3) (H W : Nat) : Option (S3 × S3) := do
  let x1 ← blocksShape dim nh ws dwk mlpHidden H W depth x
  let xu ← patchExpandShape dim inputRes.1 inputRes.2 x1
  pure (xu, x1)

/-- Construction-time configuration of MixUnet (mixunet.py, lines
800-853): per-stage embedding widths (embed_dim * 2 ** i for a scalar
embed_dim), depths, head counts, shared window size, depth-wise kernel
size, MLP ratio, patch size, input channels, the image size that fixes
patches_resolution, and the requested output indices. -/
structure MixUnetCfg where
  patchSize : Nat
  inChans : Nat
  embedDims : List Nat
  depths : List Nat
  numHeads : List Nat
  windowSize : Nat
  dwk : Nat
  mlpRatio : Nat
  imgSize : Nat
  outIndices : List Nat
  deriving DecidableEq, Repr

/-- Per-stage encoder configuration assembled by MixUnet.__init__
(mixunet.py, lines 872-891): stage width, depth, head count, and the
ConvMerging target width for all but the last stage. -/
structure StageCfg where
  dim : Nat
  depth : Nat
  nh : Nat
  down : Option Nat
  deriving DecidableEq, Repr

/-- Encoder stage list of MixUnet.__init__ (mixunet.py, lines 872-891):
stage i uses embed_dim[i], depths[i], num_heads[i], and downsample
ConvMerging with out_dim embed_dim[i + 1] for every stage but the last. -/
def mkStages : List Nat → List Nat → List Nat → List StageCfg
  | d :: ds, dep :: deps, nh :: nhs => ⟨d, dep, nh, ds.head?⟩ :: mkStages ds deps nhs
  | _, _, _ => []

/-- Shape-level model of the encoder loop of MixUnet.forward_features
(mixunet.py, lines 989-995): before each stage the current tokens are
appended to x_downsample, then the stage transforms tokens and
resolution. -/
def encoderStagesShape (ws dwk ratio : Nat) :
    List StageCfg → S3 → Nat → Nat → List S3 → Option (S3 × List S3 × Nat × Nat)
  | [], x, H, W, skips => some (x, skips, H, W)
  | st :: rest, x, H, W, skips => do
      let (_, _, x1, H1, W1) ←
        basicLayerShape st.dim st.nh ws dwk (st.dim * ratio) st.depth st.down x H W
      encoderStagesShape ws dwk ratio rest x1 H1 W1 (skips ++ [x])

/-- Shape-level model of MixUnet.forward_features (mixunet.py, lines
981-998): the ConvEmbed stem, the flatten to tokens, the encoder loop
collecting one skip tensor per stage, and the final LayerNorm at the
last stage width.  Returns the normalized bottleneck tokens, the skip
list and the final resolution. -/
def forwardFeaturesShape (cfg : MixUnetCfg) (img : S4) :
    Option (S3 × List S3 × Nat × Nat) := do
  let t ← convEmbedShape cfg.patchSize cfg.inChans (cfg.embedDims.headD 0) img
  let x : S3 := ⟨t.a, t.c * t.d, t.b⟩
  let (x1, skips, H, W) ←
    encoderStagesShape cfg.windowSize cfg.dwk cfg.mlpRatio
      (mkStages cfg.embedDims cfg.depths cfg.numHeads) x t.c t.d []
  let x2 ← layerNormShape (cfg.embedDims.getLastD 0) x1
  pure (x2, skips, H, W)

/-- Per-stage decoder configuration assembled by MixUnet.__init__
(mixunet.py, lines 895-924): decoder stage inx uses the encoder width,
depth and head count of stage numLayers - 1 - inx, and the
construction-time input resolution patches_resolution / 2 ** that power. -/
structure UpStageCfg where
  dim : Nat
  depth : Nat
  nh : Nat
  res : Nat × Nat
  deriving DecidableEq, Repr

/-- Decoder stage list of MixUnet.__init__ (mixunet.py, lines 895-924). -/
def upStageList (cfg : MixUnetCfg) : List UpStageCfg :=
  (List.range (cfg.embedDims.length - 1)).map (fun i =>
    let j := cfg.embedDims.length - 1 - i
    ⟨cfg.embedDims.getD j 0, cfg.depths.getD j 0, cfg.numHeads.getD j 0,
      (cfg.imgSize / cfg.patchSize / 2 ^ j, cfg.imgSize / cfg.patchSize / 2 ^ j)⟩)

/-- Largest k at most f with k * k at most n (helper for the integer
square root below), by downward search. -/
def isqrtAux : Nat → Nat → Nat
  | 0, _ => 0
  | f + 1, n => if (f + 1) * (f + 1) ≤ n then f + 1 else isqrtAux f n

/-- Integer square root, modelling int(math.sqrt(L)) at line 1015 and
1028 of mixunet.py: the largest k with k * k at most n. -/
def intSqrt (n : Nat) : Nat := isqrtAux n n

/-- Shape-level model of the per-stage output collection in
MixUnet.forward_up_features (mixunet.py, lines 1012-1016 and 1026-1029):
H = W = int(sqrt(L)) is recomputed from the token count and the tokens
are reshaped to (B, H, W, C) -- which requires the element counts to
agree -- then transposed to NCHW. -/
def collectShape (s : S3) : Option S4 :=
  if s.a * s.b * s.c = s.a * (intSqrt s.b * (intSqrt s.b * s.c)) then
    some ⟨s.a, s.c, intSqrt s.b, intSqrt s.b⟩
  else none

/-- Shape-level model of the decoder loop of MixUnet.forward_up_features
(mixunet.py, lines 1006-1039): stage 0 collects the bottleneck tokens and
applies the bare PatchExpand; every later stage concatenates the skip
tensor at the hard-coded list index 3 - inx, reconciles the width with
the concat_back_dim Linear(2 * dim, dim), runs BasicLayer_up, and
collects the pre-upsample output; Wh and Ww double after every stage. -/
def decoderLoopShape (ws dwk ratio : Nat) (skips : List S3) :
    Nat → List UpStageCfg → S3 → Nat → Nat → List S4 → Option (List S4)
  | _, [], _, _, _, acc => some acc
  | inx, st :: rest, x, Wh, Ww, acc =>
    if inx = 0 then do
      let col ← collectShape x
      let x1 ← patchExpandShape st.dim st.res.1 st.res.2 x
      decoderLoopShape ws dwk ratio skips (inx + 1) rest x1 (Wh * 2) (Ww * 2) (acc ++ [col])
    else do
      let skip ← skips.get? (3 - inx)
      let xc ← concatLast x skip
      let xl ← linearShape (2 * st.dim) st.dim xc
      let (xu, output) ←
        basicLayerUpShape st.dim st.nh ws dwk (st.dim * ratio) st.depth st.res xl Wh Ww
      let col ← collectShape output
      decoderLoopShape ws dwk ratio skips (inx + 1) rest xu (Wh * 2) (Ww * 2) (acc ++ [col])

/-- Shape-level model of MixUnet.forward (mixunet.py, lines 1041-1056):
forward_features, forward_up_features, then the output loop that appends
x_list[i] for i = num_layers - 2 down to 0, so the returned tuple always
has num_layers - 1 entries regardless of out_indices. -/
def mixUnetForwardShape (cfg : MixUnetCfg) (img : S4) : Option (List S4) := do
  let (x, skips, H, W) ← forwardFeaturesShape cfg img
  let xs ← decoderLoopShape cfg.windowSize cfg.dwk cfg.mlpRatio skips 0
    (upStageList cfg) x H W []
  ((List.range (cfg.depths.length - 1)).reverse).mapM (fun i => xs.get? i)

/-- Model of the MixUnet.out_shape property (mixunet.py, lines
1060-1067): one (channels, stride) pair per requested output index, with
channels num_channel[i] and strides drawn from [4, 8, 16, 32]. -/
def outShapeSpec (cfg : MixUnetCfg) : Option (List (Nat × Nat)) :=
  cfg.outIndices.mapM (fun i => do
    let c ← cfg.embedDims.get? i
    let s ← [4, 8, 16, 32].get? i
    pure (c, s))

/-- The four-stage configuration of claim C2: embed_dim 24 (so widths
[24, 48, 96, 192]), depths [2, 2, 6, 2], heads [3, 6, 12, 24], window 7,
depth-wise kernel 3, MLP ratio 4, patch size 4, image size 224, with the
requested output indices left as a parameter. -/
def mixUnet224Cfg (outIdx : List Nat) : MixUnetCfg :=
  ⟨4, 3, [24, 48, 96, 192], [2, 2, 6, 2], [3, 6, 12, 24], 7, 3, 4, 224, outIdx⟩

theorem bcDim_self (m : Nat) : bcDim m m = some m := by simp [bcDim]

theorem bcDim_one_right (m : Nat) : bcDim m 1 = some m := by
  rcases eq_or_ne m 1 with rfl | h
  · simp [bcDim]
  · simp [bcDim, h]

theorem bcDim_one_left (n : Nat) : bcDim 1 n = some n := by
  rcases eq_or_ne n 1 with rfl | h
  · simp [bcDim]
  · simp [bcDim, h.symm]

theorem broadcastShape_self (t : S4) : broadcastShape t t = some t := by
  simp [broadcastShape, bcDim_self]

theorem broadcastShape3_self (s : S3) : broadcastShape3 s s = some s := by
  simp [broadcastShape3, bcDim_self]

theorem conv2dShape_odd (cin cout dk B H W : Nat) (hH : 0 < H) (hW : 0 < W) :
    conv2dShape cin cout (2 * dk + 1) 1 dk ⟨B, cin, H, W⟩ = some ⟨B, cout, H, W⟩ := by
  have g1 : 2 * dk + 1 ≤ H + 2 * dk := by omega
  have g2 : 2 * dk + 1 ≤ W + 2 * dk := by omega
  simp [conv2dShape, g1, g2]
  omega

theorem conv2dShape_one (cin cout B H W : Nat) (hH : 0 < H) (hW : 0 < W) :
    conv2dShape cin cout 1 1 0 ⟨B, cin, H, W⟩ = some ⟨B, cout, H, W⟩ := by
  have e1 : (H + 2 * 0 - 1) / 1 + 1 = H := by omega
  have e2 : (W + 2 * 0 - 1) / 1 + 1 = W := by omega
  simp [conv2dShape, e1, e2, hH, hW]; omega

theorem conv2dShape_three (cin cout B H W : Nat) (hH : 0 < H) (hW : 0 < W) :
    conv2dShape cin cout 3 1 1 ⟨B, cin, H, W⟩ = some ⟨B, cout, H, W⟩ := by
  have g1 : 3 ≤ H + 2 * 1 := by omega
  have g2 : 3 ≤ W + 2 * 1 := by omega
  simp [conv2dShape, g1, g2]
  omega

theorem bottleneckShape_eq (dim B H W : Nat) (hH : 0 < H) (hW : 0 < W) :
    bottleneckShape dim ⟨B, dim, H, W⟩ = some ⟨B, dim, H, W⟩ := by
  simp [bottleneckShape, conv2dShape_three _ _ _ _ _ hH hW,
    conv2dShape_one _ _ _ _ _ hH hW, batchNorm2dShape, broadcastShape_self]

theorem windowReverse2Shape_eq (B nH nW wh ww c : Nat) (hwh : 0 < wh) (hww : 0 < ww)
    (hnH : 0 < nH) (hnW : 0 < nW) (hc : 0 < c) :
    windowReverse2Shape wh ww (nH * wh) (nW * ww) c ⟨B * (nH * nW), wh * ww, c⟩ =
      some ⟨B, c, nH * wh, nW * ww⟩ := by
  unfold windowReverse2Shape reshapeNeg
  simp only [Nat.mul_div_left _ hwh, Nat.mul_div_left _ hww]
  have hd1 : nH * (nW * (wh * (ww * c))) ∣ B * (nH * nW) * (wh * ww) * c :=
    ⟨B, by ring⟩
  have hd2 : c * (nH * wh * (nW * ww)) ∣ B * (nH * nW) * (wh * ww) * c :=
    ⟨B, by ring⟩
  rw [if_pos hd1]
  simp only [Option.bind_eq_bind, Option.some_bind]
  rw [if_pos hd2]
  have he : B * (nH * nW) * (wh * ww) * c = B * (c * (nH * wh * (nW * ww))) := by ring
  rw [he, Nat.mul_div_left]
  · rfl
  · exact Nat.mul_pos hc (Nat.mul_pos (Nat.mul_pos hnH hwh) (Nat.mul_pos hnW hww))

theorem windowPartition2Shape_eq (B nH nW wh ww c : Nat) (hwh : 0 < wh) (hww : 0 < ww)
    (hc : 0 < c) :
    windowPartition2Shape wh ww ⟨B, c, nH * wh, nW * ww⟩ =
      some ⟨B * (nH * nW), wh * ww, c⟩ := by
  unfold windowPartition2Shape reshapeFixed reshapeNeg
  simp only [Nat.mul_div_left _ hwh, Nat.mul_div_left _ hww]
  have hd1 : wh * ww * c ∣ B * c * (nH * wh) * (nW * ww) := ⟨B * (nH * nW), by ring⟩
  have hq : B * c * (nH * wh) * (nW * ww) / (wh * ww * c) = B * (nH * nW) := by
    rw [show B * c * (nH * wh) * (nW * ww) = B * (nH * nW) * (wh * ww * c) from by ring,
      Nat.mul_div_left _ (Nat.mul_pos (Nat.mul_pos hwh hww) hc)]
  simp [hd1, hq]

theorem swinWindowPartitionShape_eq (B nH nW ws c : Nat) (hws : 0 < ws) :
    swinWindowPartitionShape ws ⟨B, nH * ws, nW * ws, c⟩ =
      some ⟨B * (nH * nW), ws, ws, c⟩ := by
  unfold swinWindowPartitionShape reshapeFixed
  simp only [Nat.mul_div_left _ hws]
  simp [Nat.mul_assoc]

theorem swinWindowReverseShape_eq (B nH nW ws c : Nat) (hws : 0 < ws)
    (hnH : 0 < nH) (hnW : 0 < nW) :
    swinWindowReverseShape ws (nH * ws) (nW * ws) ⟨B * (nH * nW), ws, ws, c⟩ =
      some ⟨B, nH * ws, nW * ws, c⟩ := by
  unfold swinWindowReverseShape
  simp only [Nat.mul_div_left _ hws]
  have hd1 : nH * nW ∣ B * (nH * nW) := ⟨B, by ring⟩
  have hq : B * (nH * nW) / (nH * nW) = B := Nat.mul_div_left B (Nat.mul_pos hnH hnW)
  simp [hd1, hq]

theorem mixingAttentionProjShape_eq (B nH nW wh ww nh hd : Nat)
    (hwh : 0 < wh) (hww : 0 < ww) (hnH : 0 < nH) (hnW : 0 < nW)
    (hnh : 0 < nh) (hhd : 0 < hd) :
    mixingAttentionProjShape (2 * (nh * hd)) wh ww (nH * wh) (nW * ww)
      ⟨B * (nH * nW), wh * ww, 2 * (nh * hd)⟩ =
      some (⟨B * (nH * nW), wh * ww, nh * hd⟩, ⟨B, 2 * (nh * hd), nH * wh, nW * ww⟩) := by
  have e2 : 2 * (nh * hd) / 2 = nh * hd := by omega
  simp [mixingAttentionProjShape, linearShape, layerNormShape, e2,
    windowReverse2Shape_eq B nH nW wh ww (2 * (nh * hd)) hwh hww hnH hnW
      (Nat.mul_pos (by omega) (Nat.mul_pos hnh hhd))]

theorem mixingAttentionConvShape_eq (B nh hd dk H W : Nat) (hH : 0 < H) (hW : 0 < W) :
    mixingAttentionConvShape (2 * (nh * hd)) (2 * dk + 1) ⟨B, 2 * (nh * hd), H, W⟩ =
      some (⟨B, nh * hd, 1, 1⟩, ⟨B, nh * hd, H, W⟩) := by
  have e2 : 2 * (nh * hd) / 2 = nh * hd := by omega
  have hdwk : (2 * dk + 1) / 2 = dk := by omega
  simp [mixingAttentionConvShape, hdwk, e2, batchNorm2dShape,
    conv2dShape_odd (2 * (nh * hd)) (2 * (nh * hd)) dk B H W hH hW,
    conv2dShape_one (2 * (nh * hd)) (2 * (nh * hd) / 8) B 1 1 Nat.one_pos Nat.one_pos,
    conv2dShape_one (2 * (nh * hd) / 8) (nh * hd) B 1 1 Nat.one_pos Nat.one_pos,
    conv2dShape_one (2 * (nh * hd) / 8) (2 * (nh * hd) / 2) B 1 1 Nat.one_pos Nat.one_pos,
    conv2dShape_one (2 * (nh * hd)) (nh * hd) B H W hH hW,
    conv2dShape_one (2 * (nh * hd)) (2 * (nh * hd) / 2) B H W hH hW]

theorem mixingAttentionQKVShape_eq (B2 nH nW wh ww nh hd : Nat) (hB2 : 0 < B2)
    (hwh : 0 < wh) (hww : 0 < ww) (hnh : 0 < nh) (hhd : 0 < hd) :
    mixingAttentionQKVShape (2 * (nh * hd)) nh ⟨B2 * (nH * nW), wh * ww, nh * hd⟩
      ⟨B2, nh * hd, 1, 1⟩ =
      some (⟨B2 * (nH * nW), nh, wh * ww, hd⟩, ⟨B2 * (nH * nW), nh, wh * ww, hd⟩) := by
  have e2 : 2 * (nh * hd) / 2 = nh * hd := by omega
  have ehd : nh * hd / nh = hd := by
    rw [Nat.mul_comm]; exact Nat.mul_div_left hd hnh
  have hfix : B2 * (nH * nW) * (wh * ww) * (nh * hd * 3)
      = B2 * (nH * nW) * (wh * ww * (3 * (nh * hd))) := by ring
  have hb0d : nh * hd ∣ B2 * (nh * hd) := ⟨B2, by ring⟩
  have hb0v : B2 * (nh * hd) / (nh * hd) = B2 :=
    Nat.mul_div_left B2 (Nat.mul_pos hnh hhd)
  have hvd : B2 * (nh * (wh * ww * hd)) ∣ B2 * (nH * nW) * nh * (wh * ww) * hd :=
    ⟨nH * nW, by ring⟩
  have hvv : B2 * (nH * nW) * nh * (wh * ww) * hd / (B2 * (nh * (wh * ww * hd)))
      = nH * nW := by
    rw [show B2 * (nH * nW) * nh * (wh * ww) * hd
        = nH * nW * (B2 * (nh * (wh * ww * hd))) from by ring]
    exact Nat.mul_div_left _
      (Nat.mul_pos hB2 (Nat.mul_pos hnh (Nat.mul_pos (Nat.mul_pos hwh hww) hhd)))
  have hvbd : nh * (wh * ww * hd) ∣ B2 * (nH * nW) * nh * (wh * ww) * hd :=
    ⟨B2 * (nH * nW), by ring⟩
  have hvbv : B2 * (nH * nW) * nh * (wh * ww) * hd / (nh * (wh * ww * hd))
      = B2 * (nH * nW) := by
    rw [show B2 * (nH * nW) * nh * (wh * ww) * hd
        = B2 * (nH * nW) * (nh * (wh * ww * hd)) from by ring]
    exact Nat.mul_div_left _
      (Nat.mul_pos hnh (Nat.mul_pos (Nat.mul_pos hwh hww) hhd))
  simp [mixingAttentionQKVShape, linearShape, reshapeFixed, reshapeNeg, e2, ehd,
    hfix, hb0d, hb0v, hvd, hvv, hvbd, hvbv, broadcastShape5, bcDim_self, bcDim_one_right]

theorem mixingAttentionScoreShape_eq (B3 wh ww nh hd : Nat)
    (hwh : 0 < wh) (hww : 0 < ww) (hnh : 0 < nh) :
    mixingAttentionScoreShape nh wh ww none ⟨B3, wh * ww, nh * hd⟩
      ⟨B3, nh, wh * ww, hd⟩ ⟨B3, nh, wh * ww, hd⟩ = some ⟨B3, wh * ww, nh * hd⟩ := by
  have hnbd : wh * ww * (wh * ww) ∣ wh * ww * (wh * ww) * nh := ⟨nh, rfl⟩
  have hnbv : wh * ww * (wh * ww) * nh / (wh * ww * (wh * ww)) = nh := by
    rw [Nat.mul_comm (wh * ww * (wh * ww)) nh]
    exact Nat.mul_div_left nh
      (Nat.mul_pos (Nat.mul_pos hwh hww) (Nat.mul_pos hwh hww))
  have hfix : B3 * nh * (wh * ww) * hd = B3 * (wh * ww * (nh * hd)) := by ring
  simp [mixingAttentionScoreShape, mmShape, reshapeFixed, reshapeNeg,
    hnbd, hnbv, hfix, broadcastShape, bcDim_self, bcDim_one_right]

theorem mixingAttentionFuseShape_eq (B nH nW wh ww nh hd : Nat)
    (hwh : 0 < wh) (hww : 0 < ww) (hnH : 0 < nH) (hnW : 0 < nW)
    (hnh : 0 < nh) (hhd : 0 < hd) :
    mixingAttentionFuseShape (2 * (nh * hd)) wh ww (nH * wh) (nW * ww)
      ⟨B * (nH * nW), wh * ww, nh * hd⟩ ⟨B, nh * hd, nH * wh, nW * ww⟩ =
      some ⟨B * (nH * nW), wh * ww, 2 * (nh * hd)⟩ := by
  have e2 : 2 * (nh * hd) / 2 = nh * hd := by omega
  have hH : 0 < nH * wh := Nat.mul_pos hnH hwh
  have hW : 0 < nW * ww := Nat.mul_pos hnW hww
  have hcc : nh * hd + nh * hd = 2 * (nh * hd) := by ring
  simp [mixingAttentionFuseShape, e2, hcc, batchNorm2dShape, layerNormShape,
    linearShape, concatLast,
    windowReverse2Shape_eq B nH nW wh ww (nh * hd) hwh hww hnH hnW
      (Nat.mul_pos hnh hhd),
    windowPartition2Shape_eq B nH nW wh ww (nh * hd) hwh hww (Nat.mul_pos hnh hhd),
    conv2dShape_one (nh * hd) (2 * (nh * hd) / 16) B (nH * wh) (nW * ww) hH hW,
    conv2dShape_one (2 * (nh * hd) / 16) 1 B (nH * wh) (nW * ww) hH hW,
    broadcastShape, bcDim_self, bcDim_one_left]

theorem mixingAttentionForwardShape_eq (B nH nW wh ww nh hd dk : Nat) (hB : 0 < B)
    (hwh : 0 < wh) (hww : 0 < ww) (hnH : 0 < nH) (hnW : 0 < nW)
    (hnh : 0 < nh) (hhd : 0 < hd) :
    mixingAttentionForwardShape (2 * (nh * hd)) wh ww (2 * dk + 1) nh
      (nH * wh) (nW * ww) none ⟨B * (nH * nW), wh * ww, 2 * (nh * hd)⟩ =
      some ⟨B * (nH * nW), wh * ww, 2 * (nh * hd)⟩ := by
  have hH : 0 < nH * wh := Nat.mul_pos hnH hwh
  have hW : 0 < nW * ww := Nat.mul_pos hnW hww
  simp [mixingAttentionForwardShape,
    mixingAttentionProjShape_eq B nH nW wh ww nh hd hwh hww hnH hnW hnh hhd,
    mixingAttentionConvShape_eq B nh hd dk (nH * wh) (nW * ww) hH hW,
    mixingAttentionQKVShape_eq B nH nW wh ww nh hd hB hwh hww hnh hhd,
    mixingAttentionScoreShape_eq (B * (nH * nW)) wh ww nh hd hwh hww hnh,
    mixingAttentionFuseShape_eq B nH nW wh ww nh hd hwh hww hnH hnW hnh hhd]

theorem pad_to_multiple (ws H : Nat) (hws : 0 < ws) (hH : 0 < H) :
    ∃ nH, 0 < nH ∧ H + (ws - H % ws) % ws = nH * ws := by
  have hdm := Nat.div_add_mod H ws
  have hm : H % ws < ws := Nat.mod_lt _ hws
  rcases Nat.eq_zero_or_pos (H % ws) with h0 | hpos
  · refine ⟨H / ws, ?_, ?_⟩
    · rcases Nat.eq_zero_or_pos (H / ws) with hq | hq
      · rw [hq, Nat.mul_zero] at hdm; omega
      · exact hq
    · rw [h0, Nat.sub_zero, Nat.mod_self, Nat.add_zero]
      exact (Nat.div_mul_cancel (Nat.dvd_of_mod_eq_zero h0)).symm
  · refine ⟨H / ws + 1, Nat.succ_pos _, ?_⟩
    have hsub : (ws - H % ws) % ws = ws - H % ws := Nat.mod_eq_of_lt (by omega)
    rw [hsub]
    calc H + (ws - H % ws) = ws * (H / ws) + H % ws + (ws - H % ws) := by rw [hdm]
      _ = ws * (H / ws) + (H % ws + (ws - H % ws)) := by rw [Nat.add_assoc]
      _ = ws * (H / ws) + ws := by rw [Nat.add_sub_cancel' (Nat.le_of_lt hm)]
      _ = (H / ws + 1) * ws := by ring

theorem mixingBlockFrontShape_eq (B nh hd dk ws H W nH2 nW2 : Nat)
    (hB : 0 < B) (hws : 0 < ws) (hH : 0 < H) (hW : 0 < W)
    (hnh : 0 < nh) (hhd : 0 < hd) (hnH2 : 0 < nH2) (hnW2 : 0 < nW2)
    (hHp : H + (ws - H % ws) % ws = nH2 * ws)
    (hWp : W + (ws - W % ws) % ws = nW2 * ws) :
    mixingBlockFrontShape (2 * (nh * hd)) nh ws (2 * dk + 1) 0 H W none
      ⟨B, H * W, 2 * (nh * hd)⟩ =
      some (⟨B * (nH2 * nW2), ws * ws, 2 * (nh * hd)⟩, nH2 * ws, nW2 * ws) := by
  have hfix : B * (H * W) * (2 * (nh * hd)) = B * (H * (W * (2 * (nh * hd)))) := by ring
  have hwd : ws * ws * (2 * (nh * hd)) ∣
      B * (nH2 * nW2) * ws * ws * (2 * (nh * hd)) := ⟨B * (nH2 * nW2), by ring⟩
  have hwv : B * (nH2 * nW2) * ws * ws * (2 * (nh * hd)) / (ws * ws * (2 * (nh * hd)))
      = B * (nH2 * nW2) := by
    rw [show B * (nH2 * nW2) * ws * ws * (2 * (nh * hd))
        = B * (nH2 * nW2) * (ws * ws * (2 * (nh * hd))) from by ring]
    exact Nat.mul_div_left _
      (Nat.mul_pos (Nat.mul_pos hws hws) (Nat.mul_pos (by omega) (Nat.mul_pos hnh hhd)))
  simp [mixingBlockFrontShape, assertShape, layerNormShape, shiftAndMask,
    reshapeFixed, reshapeNeg, hfix, hHp, hWp, hwd, hwv,
    bottleneckShape_eq (2 * (nh * hd)) B H W hH hW,
    swinWindowPartitionShape_eq B nH2 nW2 ws (2 * (nh * hd)) hws,
    mixingAttentionForwardShape_eq B nH2 nW2 ws ws nh hd dk hB hws hws hnH2 hnW2 hnh hhd]

theorem mixingBlockBackShape_eq (B nh hd ws hidden H W nH2 nW2 : Nat)
    (hB : 0 < B) (hws : 0 < ws) (hnh : 0 < nh) (hhd : 0 < hd)
    (hnH2 : 0 < nH2) (hnW2 : 0 < nW2)
    (hHle : H ≤ nH2 * ws) (hWle : W ≤ nW2 * ws) :
    mixingBlockBackShape (2 * (nh * hd)) ws hidden H W (nH2 * ws) (nW2 * ws)
      ⟨B, H * W, 2 * (nh * hd)⟩ ⟨B * (nH2 * nW2), ws * ws, 2 * (nh * hd)⟩ =
      some ⟨B, H * W, 2 * (nh * hd)⟩ := by
  have hmd : ws * (ws * (2 * (nh * hd))) ∣
      B * (nH2 * nW2) * (ws * ws) * (2 * (nh * hd)) := ⟨B * (nH2 * nW2), by ring⟩
  have hmv : B * (nH2 * nW2) * (ws * ws) * (2 * (nh * hd)) / (ws * (ws * (2 * (nh * hd))))
      = B * (nH2 * nW2) := by
    rw [show B * (nH2 * nW2) * (ws * ws) * (2 * (nh * hd))
        = B * (nH2 * nW2) * (ws * (ws * (2 * (nh * hd)))) from by ring]
    exact Nat.mul_div_left _
      (Nat.mul_pos hws (Nat.mul_pos hws (Nat.mul_pos (by omega) (Nat.mul_pos hnh hhd))))
  have hminH : min H (nH2 * ws) = H := Nat.min_eq_left hHle
  have hminW : min W (nW2 * ws) = W := Nat.min_eq_left hWle
  have hfix : B * H * W * (2 * (nh * hd)) = B * (H * W * (2 * (nh * hd))) := by ring
  simp [mixingBlockBackShape, reshapeNeg, reshapeFixed, hmd, hmv, hminH, hminW, hfix,
    swinWindowReverseShape_eq B nH2 nW2 ws (2 * (nh * hd)) hws hnH2 hnW2,
    broadcastShape3_self, layerNormShape, mlpShape, linearShape]

theorem mixingBlockForwardShape_eq (B nh hd dk ws hidden H W : Nat)
    (hB : 0 < B) (hws : 0 < ws) (hH : 0 < H) (hW : 0 < W)
    (hnh : 0 < nh) (hhd : 0 < hd) :
    mixingBlockForwardShape (2 * (nh * hd)) nh ws (2 * dk + 1) 0 hidden H W none
      ⟨B, H * W, 2 * (nh * hd)⟩ = some ⟨B, H * W, 2 * (nh * hd)⟩ := by
  obtain ⟨nH2, hnH2, hHp⟩ := pad_to_multiple ws H hws hH
  obtain ⟨nW2, hnW2, hWp⟩ := pad_to_multiple ws W hws hW
  have hHle : H ≤ nH2 * ws := by omega
  have hWle : W ≤ nW2 * ws := by omega
  simp [mixingBlockForwardShape,
    mixingBlockFrontShape_eq B nh hd dk ws H W nH2 nW2 hB hws hH hW hnh hhd hnH2 hnW2
      hHp hWp,
    mixingBlockBackShape_eq B nh hd ws hidden H W nH2 nW2 hB hws hnh hhd hnH2 hnW2
      hHle hWle]

theorem isqrtAux_sq_le (f n : Nat) : isqrtAux f n * isqrtAux f n ≤ n := by
  induction f with
  | zero => simp [isqrtAux]
  | succ f ih =>
      simp only [isqrtAux]
      split
      · assumption
      · exact ih

theorem le_isqrtAux (n k : Nat) : ∀ f, k ≤ f → k * k ≤ n → k ≤ isqrtAux f n := by
  intro f
  induction f with
  | zero => intro hk _; omega
  | succ f ih =>
      intro hk hsq
      simp only [isqrtAux]
      split
      · exact hk
      · rename_i hcond
        have hkne : k ≠ f + 1 := by
          rintro rfl; exact hcond hsq
        exact ih (by omega) hsq

/-- C1: for every rank-4 tensor of shape (B, C, H, W) with H divisible by
the window height and W divisible by the window width (written H = nH * wh,
W = nW * ww), window_reverse2 of window_partition2 restores every entry of
the tensor exactly: the partition/reverse pair is a strict inverse on the
valid index range. -/
theorem window_partition2_reverse2_roundtrip {α : Type} (x : Nat → Nat → Nat → Nat → α)
    (wh ww nH nW C b c h w : Nat) (hwh : 0 < wh) (hww : 0 < ww)
    (hh : h < nH * wh) (hw : w < nW * ww) :
    window_reverse2 (nH * wh) (nW * ww) C wh ww
      (window_partition2 (nH * wh) (nW * ww) wh ww x) b c h w = x b c h w := by
  have hnH : 0 < nH := by
    rcases Nat.eq_zero_or_pos nH with h0 | h0
    · subst h0; simp at hh
    · exact h0
  have hnW : 0 < nW := by
    rcases Nat.eq_zero_or_pos nW with h0 | h0
    · subst h0; simp at hw
    · exact h0
  have eH : nH * wh / wh = nH := Nat.mul_div_left nH hwh
  have eW : nW * ww / ww = nW := Nat.mul_div_left nW hww
  have hdh : h / wh < nH := (Nat.div_lt_iff_lt_mul hwh).2 hh
  have hdw : w / ww < nW := (Nat.div_lt_iff_lt_mul hww).2 hw
  unfold window_reverse2 window_partition2
  rw [eH, eW]
  have hb : h / wh * nW + w / ww < nH * nW := by
    calc h / wh * nW + w / ww < h / wh * nW + nW := by omega
      _ = (h / wh + 1) * nW := by ring
      _ ≤ nH * nW := Nat.mul_le_mul_right nW (by omega)
  have e1 : ((b * nH + h / wh) * nW + w / ww) / (nH * nW) = b := by
    have e : (b * nH + h / wh) * nW + w / ww
        = h / wh * nW + w / ww + nH * nW * b := by ring
    rw [e, Nat.add_mul_div_left _ _ (Nat.mul_pos hnH hnW), Nat.div_eq_of_lt hb,
      Nat.zero_add]
  have e2 : ((b * nH + h / wh) * nW + w / ww) / nW = b * nH + h / wh := by
    have e : (b * nH + h / wh) * nW + w / ww = w / ww + nW * (b * nH + h / wh) := by ring
    rw [e, Nat.add_mul_div_left _ _ hnW, Nat.div_eq_of_lt hdw, Nat.zero_add]
  have e3 : (b * nH + h / wh) % nH = h / wh := by
    have e : b * nH + h / wh = h / wh + nH * b := by ring
    rw [e, Nat.add_mul_mod_self_left, Nat.mod_eq_of_lt hdh]
  have e4 : ((b * nH + h / wh) * nW + w / ww) % nW = w / ww := by
    have e : (b * nH + h / wh) * nW + w / ww = w / ww + nW * (b * nH + h / wh) := by ring
    rw [e, Nat.add_mul_mod_self_left, Nat.mod_eq_of_lt hdw]
  have e5 : (h % wh * ww + w % ww) / ww = h % wh := by
    have e : h % wh * ww + w % ww = w % ww + ww * (h % wh) := by ring
    rw [e, Nat.add_mul_div_left _ _ hww, Nat.div_eq_of_lt (Nat.mod_lt w hww), Nat.zero_add]
  have e6 : (h % wh * ww + w % ww) % ww = w % ww := by
    have e : h % wh * ww + w % ww = w % ww + ww * (h % wh) := by ring
    rw [e, Nat.add_mul_mod_self_left, Nat.mod_eq_of_lt (Nat.mod_lt w hww)]
  rw [e1, e2, e3, e4, e5, e6]
  have eh : h / wh * wh + h % wh = h := by
    rw [Nat.mul_comm]; exact Nat.div_add_mod h wh
  have ew : w / ww * ww + w % ww = w := by
    rw [Nat.mul_comm]; exact Nat.div_add_mod w ww
  rw [eh, ew]

/-- Witness for C1 at window (2, 3) on a 6-by-6 map with 5 channels. -/
theorem window_partition2_reverse2_roundtrip_witness :
    (0 < 2 ∧ 0 < 3 ∧ 4 < 3 * 2 ∧ 5 < 2 * 3) ∧
    window_reverse2 (3 * 2) (2 * 3) 5 2 3
      (window_partition2 (3 * 2) (2 * 3) 2 3
        (fun b c h w => ((b * 100 + c) * 100 + h) * 100 + w))
      1 4 4 5 =
      (fun b c h w : Nat => ((b * 100 + c) * 100 + h) * 100 + w) 1 4 4 5 :=
  ⟨by decide,
    window_partition2_reverse2_roundtrip
      (fun b c h w => ((b * 100 + c) * 100 + h) * 100 + w)
      2 3 3 2 5 1 4 4 5 (by decide) (by decide) (by decide) (by decide)⟩

/-- C2 counterexample: with out_indices = [3] (one requested output index)
the forward pass on a (1, 3, 224, 224) input still returns 3 feature maps,
so the length of the returned tuple does not equal the number of requested
output indices; the output loop of MixUnet.forward never reads
out_indices. -/
theorem mixunet_forward_ignores_out_indices :
    (mixUnetForwardShape (mixUnet224Cfg [3]) ⟨1, 3, 224, 224⟩).map List.length =
      some 3 ∧
    (mixUnet224Cfg [3]).outIndices.length = 1 ∧ (3 : Nat) ≠ 1 := by
  exact ⟨by decide, by decide, by decide⟩

/-- C2 (amended): on a (1, 3, 224, 224) input with the 4-stage
configuration (embed_dim 24, depths [2, 2, 6, 2]), MixUnet.forward always
returns num_layers - 1 = 3 feature maps with channel counts (48, 96, 192),
the per-stage widths of stages 1, 2, 3, at strides (8, 16, 32); the
returned tuple is independent of out_indices, and its length equals the
number of requested output indices exactly when three indices are
requested, as with the default-style request (1, 2, 3), for which
out_shape reports the matching (channels, stride) pairs. -/
theorem mixunet_forward_output_shapes :
    mixUnetForwardShape (mixUnet224Cfg [1, 2, 3]) ⟨1, 3, 224, 224⟩ =
      some [⟨1, 48, 28, 28⟩, ⟨1, 96, 14, 14⟩, ⟨1, 192, 7, 7⟩] ∧
    (mixUnetForwardShape (mixUnet224Cfg [1, 2, 3]) ⟨1, 3, 224, 224⟩).map List.length =
      some (mixUnet224Cfg [1, 2, 3]).outIndices.length ∧
    outShapeSpec (mixUnet224Cfg [1, 2, 3]) = some [(48, 8), (96, 16), (192, 32)] ∧
    (∀ (cfg : MixUnetCfg) (o : List Nat) (img : S4),
      mixUnetForwardShape { cfg with outIndices := o } img =
        mixUnetForwardShape cfg img) := by
  exact ⟨by decide, by decide, by decide, fun _ _ _ => rfl⟩

/-- C3: the reshape chain of PatchExpand.forward is a plain row-major
reshape, not the pixel-shuffle documented by the spec and by the
commented-out rearrange in the source: on the post-expansion tensor with
H = 1, W = 2, C = 4 whose entry at token l, channel c is 4 * l + c, the
code layout and the documented layout differ at output position
(b, l2, c2) = (0, 2, 0), while the output shape (B, 4 * H * W, C / 4)
itself is as documented (here checked on the decoder stage shape
(1, 196, 96) to (1, 784, 48)). -/
theorem patchExpand_reshape_is_not_pixel_shuffle :
    patchExpandCodeLayout 4 (fun _ l c => 4 * l + c) 0 2 0 = 2 ∧
    patchExpandSpecLayout 2 4 (fun _ l c => 4 * l + c) 0 2 0 = 4 ∧
    patchExpandCodeLayout 4 (fun _ l c => 4 * l + c) 0 2 0 ≠
      patchExpandSpecLayout 2 4 (fun _ l c => 4 * l + c) 0 2 0 ∧
    patchExpandShape 96 14 14 ⟨1, 196, 96⟩ = some ⟨1, 784, 48⟩ := by
  refine ⟨rfl, rfl, by decide, by decide⟩

/-- C4: MixingAttention.forward is shape preserving: for every valid
input of shape (numWindows * B, windowArea, C) -- channel width equal to
the module width dim = 2 * nh * hd, window area N = wh * ww, H and W
multiples of the window size, an odd depth-wise kernel, and no mask --
the returned shape equals the input shape exactly. -/
theorem mixingAttention_forward_shape_preserving
    (B nH nW wh ww nh hd dk dim dwk B2 N C H W : Nat)
    (hdim : dim = 2 * (nh * hd)) (hdwk : dwk = 2 * dk + 1)
    (hB2 : B2 = B * (nH * nW)) (hN : N = wh * ww) (hC : C = dim)
    (hH : H = nH * wh) (hW : W = nW * ww)
    (hB : 0 < B) (hwh : 0 < wh) (hww : 0 < ww) (hnH : 0 < nH) (hnW : 0 < nW)
    (hnh : 0 < nh) (hhd : 0 < hd) :
    mixingAttentionForwardShape dim wh ww dwk nh H W none ⟨B2, N, C⟩ =
      some ⟨B2, N, C⟩ := by
  subst hdim hdwk hC hB2 hN hH hW
  exact mixingAttentionForwardShape_eq B nH nW wh ww nh hd dk hB hwh hww hnH hnW hnh hhd

/-- Witness for C4 at the first-stage configuration: dim 24, window 7,
kernel 3, 3 heads, 56-by-56 map, 64 windows of 49 tokens. -/
theorem mixingAttention_forward_shape_preserving_witness :
    ((24 : Nat) = 2 * (3 * 4) ∧ (3 : Nat) = 2 * 1 + 1 ∧ (64 : Nat) = 1 * (8 * 8) ∧
      (49 : Nat) = 7 * 7 ∧ (56 : Nat) = 8 * 7) ∧
    mixingAttentionForwardShape 24 7 7 3 3 56 56 none ⟨64, 49, 24⟩ =
      some ⟨64, 49, 24⟩ :=
  ⟨by decide,
    mixingAttention_forward_shape_preserving 1 8 8 7 7 3 4 1 24 3 64 49 24 56 56
      (by decide) (by decide) (by decide) (by decide) (by decide) (by decide)
      (by decide) (by decide) (by decide) (by decide) (by decide) (by decide)
      (by decide) (by decide)⟩

/-- C5: MixingBlock.forward on an input of shape (B, L, C) at resolution
(H, W) with a valid configuration (C equal to the even module width,
heads dividing the attention width, odd depth-wise kernel, shift 0):
when L = H * W the result has exactly the input shape (B, H * W, C); when
L differs from H * W the size assert fails; and the F.pad step pads only
on the trailing edges by (ws - W % ws) % ws columns and
(ws - H % ws) % ws rows, leaving every original entry untouched and
writing zeros outside the original extent. -/
theorem mixingBlock_forward_pad_and_shape
    (B nh hd dk ws hidden dim dwk C H W : Nat)
    (hdim : dim = 2 * (nh * hd)) (hdwk : dwk = 2 * dk + 1) (hC : C = dim)
    (hB : 0 < B) (hws : 0 < ws) (hH : 0 < H) (hW : 0 < W)
    (hnh : 0 < nh) (hhd : 0 < hd) :
    (mixingBlockForwardShape dim nh ws dwk 0 hidden H W none ⟨B, H * W, C⟩ =
      some ⟨B, H * W, C⟩) ∧
    (∀ L, L ≠ H * W →
      mixingBlockForwardShape dim nh ws dwk 0 hidden H W none ⟨B, L, C⟩ = none) ∧
    (∀ (x : Nat → Nat → Nat → Nat → Int) (b h w c : Nat), h < H → w < W →
      padHW 0 H W ((ws - H % ws) % ws) ((ws - W % ws) % ws) x b h w c = x b h w c) ∧
    (∀ (x : Nat → Nat → Nat → Nat → Int) (b h w c : Nat), H ≤ h ∨ W ≤ w →
      padHW 0 H W ((ws - H % ws) % ws) ((ws - W % ws) % ws) x b h w c = 0) := by
  subst hdim hdwk hC
  refine ⟨?_, ?_, ?_, ?_⟩
  · exact mixingBlockForwardShape_eq B nh hd dk ws hidden H W hB hws hH hW hnh hhd
  · intro L hne
    simp [mixingBlockForwardShape, mixingBlockFrontShape, assertShape, hne]
  · intro x b h w c hh hw
    simp [padHW, hh, hw]
  · intro x b h w c hor
    have : ¬(h < H ∧ w < W) := by omega
    simp [padHW, this]

/-- Witness for C5 at the first-stage configuration: dim 24, 3 heads,
window 7, kernel 3, hidden width 96, 56-by-56 resolution (3136 tokens). -/
theorem mixingBlock_forward_pad_and_shape_witness :
    ((24 : Nat) = 2 * (3 * 4) ∧ (3 : Nat) = 2 * 1 + 1 ∧ 0 < 1 ∧ 0 < 7 ∧ 0 < 56) ∧
    mixingBlockForwardShape 24 3 7 3 0 96 56 56 none ⟨1, 3136, 24⟩ =
      some ⟨1, 3136, 24⟩ :=
  ⟨by decide, by
    have h := mixingBlock_forward_pad_and_shape 1 3 4 1 7 96 24 3 24 56 56
      (by decide) (by decide) (by decide) (by decide) (by decide) (by decide)
      (by decide) (by decide) (by decide)
    exact h.1⟩

/-- C6: for every window size (wh, ww) with wh, ww at least 1, every entry
of the relative_position_index table lies in the half-open interval
[0, (2 * wh - 1) * (2 * ww - 1)), so it indexes validly into the relative
position bias table. -/
theorem relative_position_index_in_range (wh ww i j : Nat)
    (hwh : 1 ≤ wh) (hww : 1 ≤ ww) (hi : i < wh * ww) (hj : j < wh * ww) :
    0 ≤ relative_position_index wh ww i j ∧
    relative_position_index wh ww i j < (2 * (wh : Int) - 1) * (2 * (ww : Int) - 1) := by
  have hww0 : 0 < ww := hww
  have ha : i / ww < wh := (Nat.div_lt_iff_lt_mul hww0).2 hi
  have hb : j / ww < wh := (Nat.div_lt_iff_lt_mul hww0).2 hj
  have hr : i % ww < ww := Nat.mod_lt i hww0
  have hs : j % ww < ww := Nat.mod_lt j hww0
  have ha' : ((i / ww : Nat) : Int) < (wh : Int) := by exact_mod_cast ha
  have hb' : ((j / ww : Nat) : Int) < (wh : Int) := by exact_mod_cast hb
  have hr' : ((i % ww : Nat) : Int) < (ww : Int) := by exact_mod_cast hr
  have hs' : ((j % ww : Nat) : Int) < (ww : Int) := by exact_mod_cast hs
  have ha0 : (0 : Int) ≤ ((i / ww : Nat) : Int) := Int.natCast_nonneg _
  have hb0 : (0 : Int) ≤ ((j / ww : Nat) : Int) := Int.natCast_nonneg _
  have hr0 : (0 : Int) ≤ ((i % ww : Nat) : Int) := Int.natCast_nonneg _
  have hs0 : (0 : Int) ≤ ((j % ww : Nat) : Int) := Int.natCast_nonneg _
  have hwh' : (1 : Int) ≤ (wh : Int) := by exact_mod_cast hwh
  have hww' : (1 : Int) ≤ (ww : Int) := by exact_mod_cast hww
  unfold relative_position_index
  have hA : (0 : Int) ≤ ((i / ww : Nat) : Int) - ((j / ww : Nat) : Int) + ((wh : Int) - 1) := by
    linarith
  have hA2 : ((i / ww : Nat) : Int) - ((j / ww : Nat) : Int) + ((wh : Int) - 1)
      ≤ 2 * (wh : Int) - 2 := by linarith
  have hC : (0 : Int) ≤ ((i % ww : Nat) : Int) - ((j % ww : Nat) : Int) + ((ww : Int) - 1) := by
    linarith
  have hC2 : ((i % ww : Nat) : Int) - ((j % ww : Nat) : Int) + ((ww : Int) - 1)
      ≤ 2 * (ww : Int) - 2 := by linarith
  have hBpos : (0 : Int) ≤ 2 * (ww : Int) - 1 := by linarith
  constructor
  · exact add_nonneg (mul_nonneg hA hBpos) hC
  · have h1 : (((i / ww : Nat) : Int) - ((j / ww : Nat) : Int) + ((wh : Int) - 1))
        * (2 * (ww : Int) - 1) ≤ (2 * (wh : Int) - 2) * (2 * (ww : Int) - 1) :=
      mul_le_mul_of_nonneg_right hA2 hBpos
    have expand : (2 * (wh : Int) - 1) * (2 * (ww : Int) - 1)
        = (2 * (wh : Int) - 2) * (2 * (ww : Int) - 1) + (2 * (ww : Int) - 1) := by ring
    linarith

/-- Witness for C6 at the default 7-by-7 window, token pair (5, 11). -/
theorem relative_position_index_in_range_witness :
    (1 ≤ 7 ∧ 1 ≤ 7 ∧ 5 < 7 * 7 ∧ 11 < 7 * 7) ∧
    (0 ≤ relative_position_index 7 7 5 11 ∧
      relative_position_index 7 7 5 11 < (2 * (7 : Int) - 1) * (2 * (7 : Int) - 1)) :=
  ⟨by decide,
    relative_position_index_in_range 7 7 5 11 (by decide) (by decide) (by decide)
      (by decide)⟩

/-- C7: on a (1, 3, 224, 224) input with the 4-stage configuration, the
encoder records exactly one skip tensor per stage (4 entries, at strictly
decreasing resolution 3136, 784, 196, 49 tokens), and the decoder loop,
which concatenates the skip at the hard-coded list index 3 - inx for every
stage inx > 0, succeeds with the matching widths: the skip at index 3 - 1
has 96 channels, the working width of decoder stage 1, and the skip at
index 3 - 2 has 48 channels, the working width of decoder stage 2. -/
theorem mixunet_skip_connection_scheme :
    forwardFeaturesShape (mixUnet224Cfg [1, 2, 3]) ⟨1, 3, 224, 224⟩ =
      some (⟨1, 49, 192⟩,
        [⟨1, 3136, 24⟩, ⟨1, 784, 48⟩, ⟨1, 196, 96⟩, ⟨1, 49, 192⟩], 7, 7) ∧
    [(⟨1, 3136, 24⟩ : S3), ⟨1, 784, 48⟩, ⟨1, 196, 96⟩, ⟨1, 49, 192⟩].length =
      (mixUnet224Cfg [1, 2, 3]).depths.length ∧
    ((3136 : Nat) > 784 ∧ (784 : Nat) > 196 ∧ (196 : Nat) > 49) ∧
    ([(⟨1, 3136, 24⟩ : S3), ⟨1, 784, 48⟩, ⟨1, 196, 96⟩, ⟨1, 49, 192⟩].get? (3 - 1)).map
      S3.c = ((upStageList (mixUnet224Cfg [1, 2, 3])).get? 1).map UpStageCfg.dim ∧
    ([(⟨1, 3136, 24⟩ : S3), ⟨1, 784, 48⟩, ⟨1, 196, 96⟩, ⟨1, 49, 192⟩].get? (3 - 2)).map
      S3.c = ((upStageList (mixUnet224Cfg [1, 2, 3])).get? 2).map UpStageCfg.dim ∧
    decoderLoopShape 7 3 4 [⟨1, 3136, 24⟩, ⟨1, 784, 48⟩, ⟨1, 196, 96⟩, ⟨1, 49, 192⟩] 0
      (upStageList (mixUnet224Cfg [1, 2, 3])) ⟨1, 49, 192⟩ 7 7 [] =
      some [⟨1, 192, 7, 7⟩, ⟨1, 96, 14, 14⟩, ⟨1, 48, 28, 28⟩] := by
  exact ⟨by decide, by decide, by decide, by decide, by decide, by decide⟩

/-- C8: ConvMerging.forward on an input of shape (B, H * W, C) with the
module width dim = C and both H = 2m and W = 2n even returns shape
(B, (H / 2) * (W / 2), outDim), halving both spatial dimensions and
remapping the channel width to the configured output width; if H or W is
odd, or the token count differs from H * W, the assert fails. -/
theorem convMerging_halves_resolution (B m n C outDim : Nat)
    (hB : 0 < B) (hm : 0 < m) (hn : 0 < n) :
    convMergingShape C outDim (2 * m) (2 * n) ⟨B, 2 * m * (2 * n), C⟩ =
      some ⟨B, m * n, outDim⟩ ∧
    (∀ H W, H % 2 = 1 → convMergingShape C outDim H W ⟨B, H * W, C⟩ = none) ∧
    (∀ H W, W % 2 = 1 → convMergingShape C outDim H W ⟨B, H * W, C⟩ = none) ∧
    (∀ L H W, L ≠ H * W → convMergingShape C outDim H W ⟨B, L, C⟩ = none) := by
  refine ⟨?_, ?_, ?_, ?_⟩
  · have e1 : (2 * m) % 2 = 0 := by omega
    have e2 : (2 * n) % 2 = 0 := by omega
    have e3 : B * (2 * m * (2 * n)) * C = B * (2 * m * (2 * n * C)) := by ring
    have e4 : (2 * m + 1) / 2 = m := by omega
    have e5 : 2 * m / 2 = m := by omega
    have e6 : (2 * n + 1) / 2 = n := by omega
    have e7 : 2 * n / 2 = n := by omega
    have e8 : C + C + C + C = C * 4 := by ring
    simp [convMergingShape, assertShape, reshapeFixed, batchNorm2dShape, focusShape,
      concatChannel, conv2dShape, e1, e2, e3, e4, e5, e6, e7, e8]
    have em : m - 1 + 1 = m := by omega
    have en : n - 1 + 1 = n := by omega
    rw [if_pos ⟨hm, hn⟩]
    simp [em, en]
  · intro H W hodd
    simp [convMergingShape, assertShape, reshapeFixed]
    intro h; omega
  · intro H W hodd
    simp [convMergingShape, assertShape, reshapeFixed]
    intro h; omega
  · intro L H W hne
    simp [convMergingShape, assertShape, hne]

/-- Witness for C8: merging a (1, 24, 4)-shaped token map at resolution
4-by-6 to a width-8 map of resolution 2-by-3. -/
theorem convMerging_halves_resolution_witness :
    (0 < 1 ∧ 0 < 2 ∧ 0 < 3) ∧
    convMergingShape 4 8 (2 * 2) (2 * 3) ⟨1, 2 * 2 * (2 * 3), 4⟩ = some ⟨1, 2 * 3, 8⟩ :=
  ⟨by decide,
    (convMerging_halves_resolution 1 2 3 4 8 (by decide) (by decide) (by decide)).1⟩

/-- C9: constructing a MixingBlock with a non-zero shift size fails the
construction-time assert (modelled as none) while shift size 0 succeeds
and stores the configuration; and with shift size 0 the cyclic-shift
branch of the forward pass returns the feature map unchanged (no roll
applied) and passes None as the attention mask. -/
theorem mixingBlock_shift_disallowed :
    (∀ d n w s : Nat, s ≠ 0 → mixingBlockInit d n w s = none) ∧
    (∀ d n w : Nat, mixingBlockInit d n w 0 = some ⟨d, n, w, 0⟩) ∧
    (∀ (α β : Type) (roll : α → α) (x : α) (m : Option β),
      shiftAndMask 0 roll x m = (x, none)) := by
  refine ⟨?_, ?_, ?_⟩
  · intro d n w s hs; simp [mixingBlockInit, hs]
  · intro d n w; simp [mixingBlockInit]
  · intro α β roll x m; simp [shiftAndMask]

/-- Witness for C9 at the default block configuration (dim 24, 3 heads,
window 7) with shift sizes 5 and 0. -/
theorem mixingBlock_shift_disallowed_witness :
    mixingBlockInit 24 3 7 5 = none ∧
    mixingBlockInit 24 3 7 0 = some ⟨24, 3, 7, 0⟩ ∧
    shiftAndMask 0 (id : Nat → Nat) 5 (none : Option Nat) = (5, none) :=
  ⟨mixingBlock_shift_disallowed.1 24 3 7 5 (by decide),
    mixingBlock_shift_disallowed.2.1 24 3 7,
    mixingBlock_shift_disallowed.2.2 Nat Nat id 5 none⟩

/-- C10: the per-stage output collection of MixUnet.forward_up_features
recomputes H = W = int(sqrt(L)) from the token count, so for any tokens
with positive batch and channel sizes the reshape to (B, H, W, C) is valid
exactly when L is a perfect square -- a squareness precondition the public
forward interface imposes on every stage resolution. -/
theorem forward_up_requires_square_token_count (s : S3) (ha : 0 < s.a) (hc : 0 < s.c) :
    (collectShape s).isSome ↔ ∃ k, k * k = s.b := by
  unfold collectShape
  split
  · rename_i h
    simp only [Option.isSome_some, true_iff]
    have h1 : s.a * (s.b * s.c) = s.a * (intSqrt s.b * intSqrt s.b * s.c) := by
      calc s.a * (s.b * s.c) = s.a * s.b * s.c := by ring
        _ = s.a * (intSqrt s.b * (intSqrt s.b * s.c)) := h
        _ = s.a * (intSqrt s.b * intSqrt s.b * s.c) := by ring
    have h2 : s.b * s.c = intSqrt s.b * intSqrt s.b * s.c :=
      Nat.eq_of_mul_eq_mul_left ha h1
    have h3 : s.b = intSqrt s.b * intSqrt s.b :=
      Nat.eq_of_mul_eq_mul_right hc h2
    exact ⟨intSqrt s.b, h3.symm⟩
  · rename_i h
    constructor
    · intro hs; simp at hs
    · rintro ⟨k, hk⟩
      exfalso
      apply h
      have hk1 : k ≤ k * k := by
        rcases Nat.eq_zero_or_pos k with h0 | h0
        · omega
        · calc k = 1 * k := by omega
            _ ≤ k * k := Nat.mul_le_mul_right k h0
      have hkf : k ≤ s.b := by omega
      have hup : k ≤ isqrtAux s.b s.b := le_isqrtAux s.b k s.b hkf (by omega)
      have hdown : isqrtAux s.b s.b * isqrtAux s.b s.b ≤ s.b := isqrtAux_sq_le s.b s.b
      have hle : isqrtAux s.b s.b ≤ k := by
        by_contra hlt
        push_neg at hlt
        have : k * k < isqrtAux s.b s.b * isqrtAux s.b s.b :=
          Nat.mul_lt_mul_of_lt_of_le hlt (by omega) (by omega)
        omega
      have hek : intSqrt s.b = k := by
        unfold intSqrt; omega
      rw [hek, ← hk]
      ring

/-- Witness for C10 at the bottleneck tokens (1, 49, 192): 49 = 7 * 7 is
a perfect square and the collection succeeds. -/
theorem forward_up_requires_square_token_count_witness :
    (0 < 1 ∧ 0 < 192) ∧ ((collectShape ⟨1, 49, 192⟩).isSome ↔ ∃ k, k * k = 49) :=
  ⟨by decide,
    forward_up_requires_square_token_count ⟨1, 49, 192⟩ (by decide) (by decide)⟩
